import Mathlib

/- Shallow embedding of the Inventory Ledger & FIFO Consumption Engine of
   nutripae-compras: src/services/inventory_movement_service.py together with
   the document and request models in src/pae_compras/models/inventory.py and
   src/pae_compras/models/inventory_movement.py.

   Conventions:
   - Python floats (quantities) are modelled as rationals, datetimes/dates as
     naturals, Mongo ObjectIds as naturals, institution ids as integers (the
     source type is int and 0 is a meaningful falsy value).
   - Fallible service methods return the (possibly updated) database state
     together with an Except: an HTTPException raised mid-operation keeps the
     writes already committed, exactly as the source does.
   - Pydantic request-model validations that run before the service body
     (Field(gt=0) on consumption quantity and received quantity, the stripped
     min_length=1 reason) are embedded as guards at the head of the operation.
   - Pure audit fields no claim touches (created_at, updated_at, notes,
     created_by, reference_id, reference_type, transaction ids) are omitted
     from the embedded documents. -/

namespace NutriPae

/-- MovementType enum (models/inventory_movement.py). -/
inductive MovementType where
  | receipt
  | usage
  | adjustment
  | expired
  | loss
  deriving DecidableEq, Repr

/-- Inventory batch document (models/inventory.py, class Inventory). -/
structure Batch where
  id : Nat
  product_id : Nat
  institution_id : Int
  remaining_weight : ℚ
  unit : String
  storage_location : Option String
  date_of_admission : Nat
  lot : String
  expiration_date : Nat
  minimum_threshold : ℚ
  batch_number : String
  initial_weight : ℚ
  deleted_at : Option Nat
  deriving DecidableEq, Repr

/-- Inventory movement ledger row (models/inventory_movement.py,
    class InventoryMovement). -/
structure Movement where
  movement_type : MovementType
  product_id : Nat
  institution_id : Int
  storage_location : Option String
  quantity : ℚ
  unit : String
  lot : Option String
  expiration_date : Option Nat
  movement_date : Nat
  deleted_at : Option Nat
  deriving DecidableEq, Repr

/-- Database state: the two collections, the known product ids (the external
    Product catalogue) and the id the next inserted batch receives. -/
structure DB where
  batches : List Batch
  movements : List Movement
  products : List Nat
  nextId : Nat
  deriving DecidableEq, Repr

/-- Error outcomes; in the source these are HTTPExceptions distinguished by
    status code and detail message. -/
inductive Err where
  /-- 422, pydantic request validation -/
  | validation
  /-- 404, product not found -/
  | productNotFound
  /-- 404, inventory batch not found or soft-deleted -/
  | batchNotFound
  /-- 400, sign/type mismatch, blank storage location, batch/product mismatch -/
  | badRequest
  /-- 400, unit mismatch detail -/
  | unitMismatch
  /-- 409, duplicate batch number -/
  | conflict
  /-- 400, "Insufficient stock" -/
  | insufficientStock
  /-- 400, "Adjustment would result in negative stock" -/
  | negativeStock
  deriving DecidableEq, Repr

/-- Python str.strip(): drop leading and trailing whitespace. Implemented on
    the character list so that it is computable inside the kernel. -/
def pyStrip (s : String) : String :=
  ⟨((s.data.dropWhile Char.isWhitespace).reverse.dropWhile
      Char.isWhitespace).reverse⟩

/-- Python truthiness of an Optional[str]: None and "" are falsy. -/
def strTruthy : Option String → Bool
  | none => false
  | some s => !(s == "")

/-- Python truthiness of an Optional[int]: None and 0 are falsy. -/
def intTruthy : Option Int → Bool
  | none => false
  | some n => !(n == 0)

/-- Movement record built by create_movement before insertion. -/
def mkMovement (mt : MovementType) (pid : Nat) (iid : Int) (q : ℚ) (u : String)
    (lotv : Option String) (exp : Option Nat) (loc : Option String)
    (mdate : Nat) : Movement :=
  { movement_type := mt, product_id := pid, institution_id := iid,
    storage_location := loc, quantity := q, unit := u, lot := lotv,
    expiration_date := exp, movement_date := mdate, deleted_at := none }

/-- InventoryMovementService.create_movement: validates that the product
    exists, then the sign/type coherence (RECEIPT needs quantity > 0;
    USAGE/EXPIRED/LOSS need quantity < 0; other types are not checked), then
    inserts the ledger row. The `movement_date or datetime.utcnow()` default
    is resolved by the caller. -/
def create_movement (db : DB) (mt : MovementType) (pid : Nat) (iid : Int)
    (q : ℚ) (u : String) (loc : Option String) (lotv : Option String)
    (exp : Option Nat) (mdate : Nat) : DB × Except Err Movement :=
  if pid ∉ db.products then (db, .error .productNotFound)
  else if mt = .receipt ∧ q ≤ 0 then (db, .error .badRequest)
  else if (mt = .usage ∨ mt = .expired ∨ mt = .loss) ∧ 0 ≤ q then
    (db, .error .badRequest)
  else
    let m := mkMovement mt pid iid q u lotv exp loc mdate
    ({ db with movements := db.movements ++ [m] }, .ok m)

/-- Mongo query dict built by get_movements_by_product: the institution and
    movement-type filters are added only when the Python value is truthy (an
    enum member is always truthy, an institution id of 0 is not). -/
def movementQueryPred (pid : Nat) (iid : Option Int) (mt : Option MovementType)
    (m : Movement) : Bool :=
  m.product_id == pid && m.deleted_at == none &&
    (if intTruthy iid then m.institution_id == iid.getD 0 else true) &&
    (match mt with
     | some t => m.movement_type == t
     | none => true)

/-- Sort key "-movement_date": newest movement first. -/
def newestFirst (a b : Movement) : Prop := b.movement_date ≤ a.movement_date

instance : DecidableRel newestFirst :=
  fun a b => inferInstanceAs (Decidable (b.movement_date ≤ a.movement_date))

/-- InventoryMovementService.get_movements_by_product: filter, sort newest
    first, skip offset, limit. -/
def get_movements_by_product (db : DB) (pid : Nat) (iid : Option Int)
    (mt : Option MovementType) (limit offset : Nat) : List Movement :=
  (((db.movements.filter (movementQueryPred pid iid mt)).insertionSort
      newestFirst).drop offset).take limit

/-- Mongo query dict built by get_current_stock: storage_location and lot
    filters are added only when truthy (an empty string is not). -/
def stockQueryPred (pid : Nat) (iid : Int) (loc lotv : Option String)
    (m : Movement) : Bool :=
  m.product_id == pid && m.institution_id == iid && m.deleted_at == none &&
    (if strTruthy loc then m.storage_location == loc else true) &&
    (if strTruthy lotv then m.lot == lotv else true)

/-- InventoryMovementService.get_current_stock: sum of matching movement
    quantities, clamped below at 0 by `max(0, total_quantity)`. -/
def get_current_stock (db : DB) (pid : Nat) (iid : Int)
    (loc lotv : Option String) : ℚ :=
  max 0 (((db.movements.filter (stockQueryPred pid iid loc lotv)).map
    (·.quantity)).sum)

/-- Mongo query dict built by _get_available_batches_fifo: product,
    institution, remaining_weight > 0, not soft-deleted, and the storage
    location filter only when truthy. -/
def eligiblePred (pid : Nat) (iid : Int) (loc : Option String) (b : Batch) :
    Bool :=
  b.product_id == pid && b.institution_id == iid &&
    decide (0 < b.remaining_weight) && b.deleted_at == none &&
    (if strTruthy loc then b.storage_location == loc else true)

/-- FIFO ordering key: ascending date_of_admission. -/
def admissionLE (a b : Batch) : Prop :=
  a.date_of_admission ≤ b.date_of_admission

instance : DecidableRel admissionLE :=
  fun a b => inferInstanceAs (Decidable (a.date_of_admission ≤ b.date_of_admission))

instance : IsTotal Batch admissionLE := ⟨fun _ _ => Nat.le_total _ _⟩

instance : IsTrans Batch admissionLE := ⟨fun _ _ _ h h2 => Nat.le_trans h h2⟩

/-- InventoryMovementService._get_available_batches_fifo (leading underscore
    dropped): filter the collection, then sort ascending by date_of_admission.
    The single-key Mongo sort is embedded as a stable sort on that key; no
    secondary sort key is given in the source. -/
def get_available_batches_fifo (db : DB) (pid : Nat) (iid : Int)
    (loc : Option String) : List Batch :=
  List.insertionSort admissionLE (db.batches.filter (eligiblePred pid iid loc))

/-- Beanie document save: replaces the stored batch that has the same id. -/
def replaceById (nb : Batch) (l : List Batch) : List Batch :=
  l.map fun b => if b.id = nb.id then nb else b

/-- The per-batch arithmetic of the FIFO loop in consume_inventory_fifo,
    projected out of the database walk: for each touched batch, its updated
    document (consume_from_batch = min(remaining_to_consume, remaining_weight),
    new remaining = max(0, remaining - consume_from_batch)) and the quantity
    consumed from it. The loop breaks when remaining_to_consume <= 0. -/
def consumeLoop : List Batch → ℚ → List (Batch × ℚ)
  | [], _ => []
  | b :: rest, rtc =>
    if rtc ≤ 0 then []
    else
      let c := min rtc b.remaining_weight
      ({ b with remaining_weight := max 0 (b.remaining_weight - c) }, c) ::
        consumeLoop rest (rtc - c)

/-- The for-loop body of consume_inventory_fifo acting on the database: save
    the updated batch, then create the USAGE movement (quantity = -consumed)
    through create_movement. An HTTPException raised mid-loop aborts the walk
    but keeps the writes already committed. -/
def consumeWalk (pid : Nat) (iid : Int) (u : String) (loc : Option String)
    (mdate : Nat) : DB → List Batch → ℚ → DB × List (Batch × ℚ) × Option Err
  | db, [], _ => (db, [], none)
  | db, b :: rest, rtc =>
    if rtc ≤ 0 then (db, [], none)
    else
      let c := min rtc b.remaining_weight
      let b' := { b with remaining_weight := max 0 (b.remaining_weight - c) }
      let db1 := { db with batches := replaceById b' db.batches }
      match create_movement db1 .usage pid iid (-c) u loc (some b.lot)
          (some b.expiration_date) mdate with
      | (db2, .error e) => (db2, [(b', c)], some e)
      | (db2, .ok _) =>
        match consumeWalk pid iid u loc mdate db2 rest (rtc - c) with
        | (db3, prs, err) => (db3, (b', c) :: prs, err)

/-- InventoryConsumptionRequest (models/inventory_movement.py); quantity
    carries a pydantic gt=0 bound enforced before the service runs. -/
structure ConsumptionRequest where
  product_id : Nat
  institution_id : Int
  storage_location : Option String
  quantity : ℚ
  unit : String
  consumption_date : Option Nat
  reason : String
  consumed_by : String
  deriving DecidableEq, Repr

/-- Sum of remaining_weight over a list of batches. -/
def sumRemaining (bs : List Batch) : ℚ := (bs.map (·.remaining_weight)).sum

/-- InventoryMovementService.consume_inventory_fifo. The string ObjectId
    parse is omitted (product_id arrives parsed); the pydantic gt=0 bound on
    the quantity is the first guard; then the product check, the availability
    check over the FIFO-eligible batches, and the walk. -/
def consume_inventory_fifo (db : DB) (req : ConsumptionRequest) (now : Nat) :
    DB × Except Err (List (Batch × ℚ)) :=
  if ¬ (0 < req.quantity) then (db, .error .validation)
  else if req.product_id ∉ db.products then (db, .error .productNotFound)
  else
    let bs := get_available_batches_fifo db req.product_id req.institution_id
      req.storage_location
    if sumRemaining bs < req.quantity then (db, .error .insufficientStock)
    else
      match consumeWalk req.product_id req.institution_id req.unit
          req.storage_location (req.consumption_date.getD now) db bs
          req.quantity with
      | (db2, prs, none) => (db2, .ok prs)
      | (db2, _, some e) => (db2, .error e)

/-- InventoryReceiptRequest (models/inventory.py); quantity_received carries a
    pydantic gt=0 bound enforced before the service runs. -/
structure ReceiptRequest where
  product_id : Nat
  institution_id : Int
  storage_location : String
  quantity_received : ℚ
  unit_of_measure : String
  expiration_date : Nat
  batch_number : String
  reception_date : Option Nat
  received_by : String
  deriving DecidableEq, Repr

/-- The Mongo find_one query receive_inventory runs for the duplicate batch
    number check: same product, institution and batch_number, not deleted. -/
def dupPred (req : ReceiptRequest) (b : Batch) : Bool :=
  b.product_id == req.product_id && b.institution_id == req.institution_id &&
    b.batch_number == req.batch_number && b.deleted_at == none

/-- The batch document receive_inventory inserts: lot := batch_number,
    remaining_weight = initial_weight = quantity_received,
    minimum_threshold = 0. -/
def newBatchOf (db : DB) (req : ReceiptRequest) (now : Nat) : Batch :=
  { id := db.nextId, product_id := req.product_id,
    institution_id := req.institution_id,
    remaining_weight := req.quantity_received, unit := req.unit_of_measure,
    storage_location := some req.storage_location,
    date_of_admission := req.reception_date.getD now, lot := req.batch_number,
    expiration_date := req.expiration_date, minimum_threshold := 0,
    batch_number := req.batch_number,
    initial_weight := req.quantity_received, deleted_at := none }

/-- InventoryMovementService.receive_inventory: product check, non-blank
    storage location check, duplicate (product, institution, batch_number)
    check among non-deleted batches, then batch insertion followed by the
    RECEIPT movement via create_movement. -/
def receive_inventory (db : DB) (req : ReceiptRequest) (now : Nat) :
    DB × Except Err Batch :=
  if ¬ (0 < req.quantity_received) then (db, .error .validation)
  else if req.product_id ∉ db.products then (db, .error .productNotFound)
  else if req.storage_location = "" ∨ pyStrip req.storage_location = "" then
    (db, .error .badRequest)
  else if db.batches.any (dupPred req) then (db, .error .conflict)
  else
    let rdate := req.reception_date.getD now
    let nb : Batch := newBatchOf db req now
    let db1 := { db with batches := db.batches ++ [nb], nextId := db.nextId + 1 }
    match create_movement db1 .receipt req.product_id req.institution_id
        req.quantity_received req.unit_of_measure (some req.storage_location)
        (some req.batch_number) (some req.expiration_date) rdate with
    | (db2, .ok _) => (db2, .ok nb)
    | (db2, .error e) => (db2, .error e)

/-- ManualInventoryAdjustmentRequest (models/inventory_movement.py); reason
    carries pydantic str_strip_whitespace plus min_length=1, enforced before
    the service runs. -/
structure AdjustmentRequest where
  product_id : Nat
  inventory_id : Nat
  quantity : ℚ
  unit : String
  reason : String
  adjusted_by : Option String
  deriving DecidableEq, Repr

/-- The ADJUSTMENT ledger row create_manual_adjustment inserts directly,
    bypassing create_movement and its sign validation. -/
def adjustmentMovementOf (req : AdjustmentRequest) (batch : Batch)
    (now : Nat) : Movement :=
  { movement_type := .adjustment, product_id := req.product_id,
    institution_id := batch.institution_id,
    storage_location := batch.storage_location,
    quantity := req.quantity, unit := req.unit,
    lot := some batch.lot,
    expiration_date := some batch.expiration_date,
    movement_date := now, deleted_at := none }

/-- InventoryMovementService.create_manual_adjustment: product check, batch
    lookup by id with soft-delete check, batch/product ownership check, unit
    check, negative-stock protection on new_stock = remaining + quantity, then
    the batch save and the direct InventoryMovement insert (no sign
    validation runs on this ADJUSTMENT row). Returns (previous, new) stock. -/
def create_manual_adjustment (db : DB) (req : AdjustmentRequest) (now : Nat) :
    DB × Except Err (ℚ × ℚ) :=
  if pyStrip req.reason = "" then (db, .error .validation)
  else if req.product_id ∉ db.products then (db, .error .productNotFound)
  else
    match db.batches.find? (fun b => b.id == req.inventory_id) with
    | none => (db, .error .batchNotFound)
    | some batch =>
      if batch.deleted_at ≠ none then (db, .error .batchNotFound)
      else if batch.product_id ≠ req.product_id then (db, .error .badRequest)
      else if req.unit ≠ batch.unit then (db, .error .unitMismatch)
      else
        let previous := batch.remaining_weight
        let newStock := previous + req.quantity
        if newStock < 0 then (db, .error .negativeStock)
        else
          let b' := { batch with remaining_weight := newStock }
          ({ db with batches := replaceById b' db.batches,
                     movements := db.movements ++ [adjustmentMovementOf req batch now] },
           .ok (previous, newStock))

/-- One inbound request to the subsystem, with the wall-clock instant it is
    handled at. -/
inductive Op where
  | receive (req : ReceiptRequest) (now : Nat)
  | consume (req : ConsumptionRequest) (now : Nat)
  | adjust (req : AdjustmentRequest) (now : Nat)
  deriving DecidableEq, Repr

def Op.isAdjust : Op → Bool
  | .adjust _ _ => true
  | _ => false

/-- Resulting database state of one request; a rejected request leaves the
    state it left behind (for pre-write rejections, the unchanged state). -/
def applyOp (db : DB) : Op → DB
  | .receive req now => (receive_inventory db req now).1
  | .consume req now => (consume_inventory_fifo db req now).1
  | .adjust req now => (create_manual_adjustment db req now).1

def runOps : DB → List Op → DB
  | db, [] => db
  | db, op :: rest => runOps (applyOp db op) rest

/-- Fresh deployment: empty collections over a given product catalogue. -/
def initDB (products : List Nat) : DB :=
  { batches := [], movements := [], products := products, nextId := 0 }

/-- Batch Store side of the reconciliation filter: batches of one product at
    one institution. -/
def bMatch (pid : Nat) (iid : Int) (b : Batch) : Bool :=
  b.product_id == pid && b.institution_id == iid

def batchSum (db : DB) (pid : Nat) (iid : Int) : ℚ :=
  ((db.batches.filter (bMatch pid iid)).map (·.remaining_weight)).sum

/-- Ledger side of the reconciliation filter: non-deleted RECEIPT, USAGE and
    ADJUSTMENT rows of one product at one institution. -/
def ledgerEntryMatch (pid : Nat) (iid : Int) (m : Movement) : Bool :=
  m.product_id == pid && m.institution_id == iid && m.deleted_at == none &&
    (m.movement_type == .receipt || m.movement_type == .usage ||
      m.movement_type == .adjustment)

def ledgerSum (db : DB) (pid : Nat) (iid : Int) : ℚ :=
  ((db.movements.filter (ledgerEntryMatch pid iid)).map (·.quantity)).sum

/-- Total quantity consumed over the per-batch details of one FIFO walk. -/
def consumedTotal (prs : List (Batch × ℚ)) : ℚ := (prs.map (·.2)).sum

/-- Sequential effect on the batch collection of saving every updated batch
    of one FIFO walk, in walk order. -/
def saveAll : List (Batch × ℚ) → List Batch → List Batch
  | [], l => l
  | pr :: res, l => saveAll res (replaceById pr.1 l)

/-- The USAGE ledger row the walk writes for one touched batch (the updated
    batch document shares lot and expiration date with the original). -/
def usageMovementOf (pid : Nat) (iid : Int) (u : String) (loc : Option String)
    (mdate : Nat) (pr : Batch × ℚ) : Movement :=
  mkMovement .usage pid iid (-pr.2) u (some pr.1.lot)
    (some pr.1.expiration_date) loc mdate

/-- Structural well-formedness a live deployment maintains: batch ids are
    distinct and below the id counter, and the reconciliation law holds for
    every product+institution filter. -/
def GoodDB (db : DB) : Prop :=
  (db.batches.map (·.id)).Nodup ∧
  (∀ b ∈ db.batches, b.id < db.nextId) ∧
  (∀ p : Nat, ∀ i : Int, batchSum db p i = ledgerSum db p i)

/-- Every batch holds a nonnegative remaining weight. -/
def NonnegDB (db : DB) : Prop := ∀ b ∈ db.batches, 0 ≤ b.remaining_weight

/-- Every batch holds a remaining weight between 0 and its initial weight. -/
def BoundedDB (db : DB) : Prop :=
  ∀ b ∈ db.batches, 0 ≤ b.remaining_weight ∧
    b.remaining_weight ≤ b.initial_weight

/-! Concrete sample data used by the witness and counterexample theorems. -/

/-- Batch of 5 kg admitted on day 1. -/
def bA : Batch :=
  { id := 10, product_id := 1, institution_id := 1, remaining_weight := 5,
    unit := "kg", storage_location := some "W", date_of_admission := 1,
    lot := "A", expiration_date := 100, minimum_threshold := 0,
    batch_number := "A", initial_weight := 5, deleted_at := none }

/-- Batch of 8 kg admitted on day 2. -/
def bB : Batch :=
  { bA with
      id := 11, date_of_admission := 2, lot := "B", batch_number := "B",
      remaining_weight := 8, initial_weight := 8 }

/-- Batch of 10 kg admitted on day 3. -/
def bC : Batch :=
  { bA with
      id := 12, date_of_admission := 3, lot := "C", batch_number := "C",
      remaining_weight := 10, initial_weight := 10 }

/-- Store holding bA and bB, stored newest first (the FIFO query must put bA
    first). -/
def dbAB : DB := { batches := [bB, bA], movements := [], products := [1], nextId := 20 }

/-- Store holding only bC. -/
def dbC : DB := { batches := [bC], movements := [], products := [1], nextId := 20 }

/-- Two eligible batches sharing one admission date, stored with the higher
    id first. -/
def bT1 : Batch := { bA with id := 2, date_of_admission := 5 }

def bT2 : Batch :=
  { bA with id := 1, date_of_admission := 5, lot := "T", batch_number := "T" }

def dbTie : DB := { batches := [bT1, bT2], movements := [], products := [1], nextId := 30 }

/-- Consumption of 10 kg of product 1 at institution 1. -/
def consumeReq10 : ConsumptionRequest :=
  { product_id := 1, institution_id := 1, storage_location := none,
    quantity := 10, unit := "kg", consumption_date := none, reason := "menu",
    consumed_by := "cook" }

/-- Consumption of 24 kg: more than dbAB holds. -/
def consumeReq24 : ConsumptionRequest := { consumeReq10 with quantity := 24 }

/-- Manual adjustment of batch 12 (remaining 10) by -15. -/
def adjustReqNeg15 : AdjustmentRequest :=
  { product_id := 1, inventory_id := 12, quantity := -15, unit := "kg",
    reason := "audit", adjusted_by := none }

/-- Manual adjustment of batch 0 by +5. -/
def adjustReqPos5 : AdjustmentRequest :=
  { adjustReqNeg15 with inventory_id := 0, quantity := 5 }

/-- Receipt of a 10 kg batch "L1" of product 1 at institution 1. -/
def receiptReqL1 : ReceiptRequest :=
  { product_id := 1, institution_id := 1, storage_location := "W",
    quantity_received := 10, unit_of_measure := "kg", expiration_date := 50,
    batch_number := "L1", reception_date := none, received_by := "u" }

/-- Receipt whose batch number collides with bC. -/
def receiptReqC : ReceiptRequest := { receiptReqL1 with batch_number := "C" }

/-- Receive 10 kg, then adjust the created batch (id 0) by +5. -/
def cexOps : List Op := [.receive receiptReqL1 1, .adjust adjustReqPos5 2]

/-! List and replacement helper lemmas. -/

theorem sum_map_filter {α : Type} (P : α → Bool) (f : α → ℚ) (l : List α) :
    ((l.filter P).map f).sum = (l.map (fun x => if P x then f x else 0)).sum := by
  induction l with
  | nil => rfl
  | cons a t ih =>
    cases h : P a with
    | true => simp [List.filter_cons, h, ih]
    | false => simp [List.filter_cons, h, ih]

theorem replaceById_map_id (nb : Batch) (l : List Batch) :
    (replaceById nb l).map (·.id) = l.map (·.id) := by
  induction l with
  | nil => rfl
  | cons a t ih =>
    by_cases h : a.id = nb.id
    · simpa [replaceById, h] using ih
    · simpa [replaceById, h] using ih

theorem mem_replaceById {x nb : Batch} {l : List Batch}
    (hx : x ∈ replaceById nb l) : x = nb ∨ x ∈ l := by
  induction l with
  | nil => simp [replaceById] at hx
  | cons a t ih =>
    simp only [replaceById, List.map_cons, List.mem_cons] at hx
    rcases hx with hx | hx
    · by_cases h : a.id = nb.id
      · simp [h] at hx
        exact Or.inl hx
      · simp [h] at hx
        exact Or.inr (by simp [hx])
    · rcases ih hx with h1 | h1
      · exact Or.inl h1
      · exact Or.inr (List.mem_cons_of_mem _ h1)

theorem mem_replaceById_of_ne {x nb : Batch} {l : List Batch}
    (hx : x ∈ l) (hne : x.id ≠ nb.id) : x ∈ replaceById nb l := by
  induction l with
  | nil => simp at hx
  | cons a t ih =>
    rcases List.mem_cons.mp hx with rfl | hx
    · simp [replaceById, hne]
    · simp only [replaceById, List.map_cons, List.mem_cons]
      exact Or.inr (by simpa [replaceById] using ih hx)

theorem replaceById_eq_self {nb : Batch} {l : List Batch}
    (h : ∀ x ∈ l, x.id ≠ nb.id) : replaceById nb l = l := by
  induction l with
  | nil => rfl
  | cons a t ih =>
    have ha := h a (List.mem_cons_self a t)
    simp only [replaceById, List.map_cons, if_neg ha]
    have := ih fun x hx => h x (List.mem_cons_of_mem _ hx)
    simpa [replaceById] using this

theorem saveAll_map_id (res : List (Batch × ℚ)) (l : List Batch) :
    (saveAll res l).map (·.id) = l.map (·.id) := by
  induction res generalizing l with
  | nil => rfl
  | cons pr res ih => simp [saveAll, ih, replaceById_map_id]

theorem mem_saveAll {x : Batch} {res : List (Batch × ℚ)} {l : List Batch}
    (hx : x ∈ saveAll res l) : x ∈ l ∨ ∃ pr ∈ res, x = pr.1 := by
  induction res generalizing l with
  | nil => exact Or.inl hx
  | cons pr res ih =>
    rcases ih hx with h1 | h1
    · rcases mem_replaceById h1 with h2 | h2
      · exact Or.inr ⟨pr, List.mem_cons_self _ _, h2⟩
      · exact Or.inl h2
    · rcases h1 with ⟨pr2, hpr2, hx2⟩
      exact Or.inr ⟨pr2, List.mem_cons_of_mem _ hpr2, hx2⟩

/-! Properties of the pure FIFO loop. -/

theorem consumeLoop_nil_of_nonpos {bs : List Batch} {rtc : ℚ} (h : rtc ≤ 0) :
    consumeLoop bs rtc = [] := by
  cases bs with
  | nil => rfl
  | cons b rest => simp [consumeLoop, h]

theorem consumeLoop_sources {bs : List Batch} {q : ℚ} :
    ∀ pr ∈ consumeLoop bs q,
      ∃ b ∈ bs, pr.2 ≤ b.remaining_weight ∧
        pr.1 = { b with remaining_weight := b.remaining_weight - pr.2 } := by
  induction bs generalizing q with
  | nil => intro pr hpr; simp [consumeLoop] at hpr
  | cons b rest ih =>
    intro pr hpr
    by_cases hq : q ≤ 0
    · simp [consumeLoop, hq] at hpr
    · simp only [consumeLoop, if_neg hq, List.mem_cons] at hpr
      rcases hpr with rfl | hpr
      · refine ⟨b, List.mem_cons_self _ _, min_le_right _ _, ?_⟩
        have hmax : max 0 (b.remaining_weight - min q b.remaining_weight) =
            b.remaining_weight - min q b.remaining_weight :=
          max_eq_right (sub_nonneg.mpr (min_le_right _ _))
        simp [hmax]
      · rcases ih pr hpr with ⟨b2, hb2, hle, heq⟩
        exact ⟨b2, List.mem_cons_of_mem _ hb2, hle, heq⟩

theorem consumeLoop_nonneg {bs : List Batch} {q : ℚ} :
    ∀ pr ∈ consumeLoop bs q, 0 ≤ pr.1.remaining_weight := by
  induction bs generalizing q with
  | nil => intro pr hpr; simp [consumeLoop] at hpr
  | cons b rest ih =>
    intro pr hpr
    by_cases hq : q ≤ 0
    · simp [consumeLoop, hq] at hpr
    · simp only [consumeLoop, if_neg hq, List.mem_cons] at hpr
      rcases hpr with hpr | hpr
      · rw [hpr]
        exact le_max_left _ _
      · exact ih pr hpr

theorem consumeLoop_consumed_pos {bs : List Batch} (hpos : ∀ b ∈ bs, 0 < b.remaining_weight) :
    ∀ {q : ℚ}, ∀ pr ∈ consumeLoop bs q, 0 < pr.2 := by
  induction bs with
  | nil => intro q pr hpr; simp [consumeLoop] at hpr
  | cons b rest ih =>
    intro q pr hpr
    by_cases hq : q ≤ 0
    · simp [consumeLoop, hq] at hpr
    · simp only [consumeLoop, if_neg hq, List.mem_cons] at hpr
      rcases hpr with hpr | hpr
      · rw [hpr]
        exact lt_min (lt_of_not_le hq) (hpos b (List.mem_cons_self _ _))
      · exact ih (fun x hx => hpos x (List.mem_cons_of_mem _ hx)) pr hpr

theorem consumedTotal_consumeLoop {bs : List Batch} :
    ∀ {q : ℚ}, 0 < q → q ≤ sumRemaining bs →
      consumedTotal (consumeLoop bs q) = q := by
  induction bs with
  | nil =>
    intro q hq hle
    simp [sumRemaining] at hle
    exact absurd (lt_of_lt_of_le hq hle) (lt_irrefl 0)
  | cons b rest ih =>
    intro q hq hle
    have hq' : ¬ q ≤ 0 := not_le.mpr hq
    by_cases hcase : q ≤ b.remaining_weight
    · have hmin : min q b.remaining_weight = q := min_eq_left hcase
      simp only [consumeLoop, if_neg hq', hmin]
      have h0 : consumeLoop rest (0 : ℚ) = [] := consumeLoop_nil_of_nonpos le_rfl
      simp [consumedTotal, h0]
    · have hlt : b.remaining_weight < q := lt_of_not_le hcase
      have hmin : min q b.remaining_weight = b.remaining_weight :=
        min_eq_right (le_of_lt hlt)
      simp only [consumeLoop, if_neg hq', hmin]
      have hrec : consumedTotal (consumeLoop rest (q - b.remaining_weight)) =
          q - b.remaining_weight := by
        refine ih (by linarith) ?_
        have : sumRemaining (b :: rest) = b.remaining_weight + sumRemaining rest := by
          simp [sumRemaining]
        linarith
      simp only [consumedTotal, List.map_cons, List.sum_cons] at hrec ⊢
      rw [hrec]
      ring

theorem consumeLoop_length_le (bs : List Batch) (q : ℚ) :
    (consumeLoop bs q).length ≤ bs.length := by
  induction bs generalizing q with
  | nil => simp [consumeLoop]
  | cons b rest ih =>
    by_cases hq : q ≤ 0
    · simp [consumeLoop, hq]
    · simp only [consumeLoop, if_neg hq, List.length_cons]
      exact Nat.succ_le_succ (ih _)

theorem consumeLoop_prefix_zero {bs : List Batch} :
    ∀ {q : ℚ} (i : Nat) (pr : Batch × ℚ), (consumeLoop bs q)[i]? = some pr →
      i + 1 < (consumeLoop bs q).length → pr.1.remaining_weight = 0 := by
  induction bs with
  | nil => intro q i pr hpr _; simp [consumeLoop] at hpr
  | cons b rest ih =>
    intro q i pr hpr hi
    by_cases hq : q ≤ 0
    · rw [consumeLoop_nil_of_nonpos hq] at hpr
      simp at hpr
    · by_cases hcase : q ≤ b.remaining_weight
      · exfalso
        have hmin : min q b.remaining_weight = q := min_eq_left hcase
        have hnil : consumeLoop rest (0 : ℚ) = [] := consumeLoop_nil_of_nonpos le_rfl
        simp [consumeLoop, hq, hmin, hnil] at hi
      · have hlt : b.remaining_weight < q := lt_of_not_le hcase
        have hmin : min q b.remaining_weight = b.remaining_weight :=
          min_eq_right (le_of_lt hlt)
        rw [show consumeLoop (b :: rest) q =
            ({ b with remaining_weight := max 0 (b.remaining_weight - b.remaining_weight) },
              b.remaining_weight) :: consumeLoop rest (q - b.remaining_weight) by
          simp [consumeLoop, hq, hmin]] at hpr hi
        cases i with
        | zero =>
          rw [List.getElem?_cons_zero, Option.some.injEq] at hpr
          subst hpr
          simp
        | succ j =>
          rw [List.getElem?_cons_succ] at hpr
          refine ih j pr hpr ?_
          simpa using Nat.lt_of_succ_lt_succ hi

theorem consumeLoop_get {bs : List Batch} :
    ∀ {q : ℚ} (i : Nat) (pr : Batch × ℚ), (consumeLoop bs q)[i]? = some pr →
      ∃ b, bs[i]? = some b ∧ pr.1.id = b.id ∧
        pr.2 = min (q - consumedTotal ((consumeLoop bs q).take i))
          b.remaining_weight ∧
        pr.1.remaining_weight = b.remaining_weight - pr.2 := by
  induction bs with
  | nil => intro q i pr hpr; simp [consumeLoop] at hpr
  | cons b rest ih =>
    intro q i pr hpr
    by_cases hq : q ≤ 0
    · rw [consumeLoop_nil_of_nonpos hq] at hpr
      simp at hpr
    · have hunfold : consumeLoop (b :: rest) q =
          ({ b with remaining_weight := max 0 (b.remaining_weight - min q b.remaining_weight) },
            min q b.remaining_weight) ::
            consumeLoop rest (q - min q b.remaining_weight) := by
        simp [consumeLoop, hq]
      rw [hunfold] at hpr
      cases i with
      | zero =>
        rw [List.getElem?_cons_zero, Option.some.injEq] at hpr
        subst hpr
        refine ⟨b, by simp, by simp, ?_, ?_⟩
        · simp [consumedTotal]
        · exact max_eq_right (sub_nonneg.mpr (min_le_right _ _))
      | succ j =>
        rw [List.getElem?_cons_succ] at hpr
        rcases ih j pr hpr with ⟨b2, hb2, hid, hmin2, hrem⟩
        refine ⟨b2, by simpa using hb2, hid, ?_, hrem⟩
        rw [hunfold]
        simp only [List.take_succ_cons, consumedTotal, List.map_cons, List.sum_cons]
        rw [hmin2]
        congr 1
        simp only [consumedTotal]
        ring

theorem consumeLoop_all_zero {bs : List Batch} (h0 : ∀ b ∈ bs, 0 ≤ b.remaining_weight) :
    ∀ {q : ℚ}, sumRemaining bs = q → ∀ pr ∈ consumeLoop bs q, pr.1.remaining_weight = 0 := by
  induction bs with
  | nil => intro q _ pr hpr; simp [consumeLoop] at hpr
  | cons b rest ih =>
    intro q hsum pr hpr
    by_cases hq : q ≤ 0
    · simp [consumeLoop_nil_of_nonpos hq] at hpr
    · have hsum' : sumRemaining (b :: rest) = b.remaining_weight + sumRemaining rest := by
        simp [sumRemaining]
    -- sum of the tail is nonnegative
      have htail : 0 ≤ sumRemaining rest := by
        have : ∀ x ∈ (rest.map (·.remaining_weight)), 0 ≤ x := by
          intro x hx
          rcases List.mem_map.mp hx with ⟨b2, hb2, rfl⟩
          exact h0 b2 (List.mem_cons_of_mem _ hb2)
        exact List.sum_nonneg this
      simp only [consumeLoop, if_neg hq, List.mem_cons] at hpr
      rcases hpr with hpr | hpr
      · by_cases hcase : q ≤ b.remaining_weight
        · have hble : b.remaining_weight ≤ q := by
            rw [← hsum, hsum']
            linarith
          have hminq : min q b.remaining_weight = b.remaining_weight :=
            min_eq_right hble
          rw [hpr]
          simp [hminq]
        · have hmin : min q b.remaining_weight = b.remaining_weight :=
            min_eq_right (le_of_lt (lt_of_not_le hcase))
          rw [hpr]
          simp [hmin]
      · by_cases hcase : q ≤ b.remaining_weight
        · have hnil : consumeLoop rest (q - min q b.remaining_weight) = [] :=
            consumeLoop_nil_of_nonpos (by
              have : min q b.remaining_weight = q := min_eq_left hcase
              simp [this])
          rw [hnil] at hpr
          simp at hpr
        · have hmin : min q b.remaining_weight = b.remaining_weight :=
            min_eq_right (le_of_lt (lt_of_not_le hcase))
          have hrec : sumRemaining rest = q - b.remaining_weight := by
            rw [← hsum, hsum']
            ring
          rw [hmin] at hpr
          exact ih (fun x hx => h0 x (List.mem_cons_of_mem _ hx)) hrec pr hpr

theorem consumeLoop_ids_sublist (bs : List Batch) (q : ℚ) :
    ((consumeLoop bs q).map (·.1.id)).Sublist (bs.map (·.id)) := by
  induction bs generalizing q with
  | nil => simp [consumeLoop]
  | cons b rest ih =>
    by_cases hq : q ≤ 0
    · simp [consumeLoop, hq]
    · simp only [consumeLoop, if_neg hq, List.map_cons]
      exact List.Sublist.cons₂ _ (ih _)

/-! Properties of the FIFO-eligible batch query. -/

theorem mem_available_iff {db : DB} {pid : Nat} {iid : Int}
    {loc : Option String} {b : Batch} :
    b ∈ get_available_batches_fifo db pid iid loc ↔
      b ∈ db.batches ∧ eligiblePred pid iid loc b = true := by
  unfold get_available_batches_fifo
  rw [(List.perm_insertionSort admissionLE _).mem_iff]
  exact List.mem_filter

theorem eligiblePred_iff {pid : Nat} {iid : Int} {loc : Option String}
    {b : Batch} :
    eligiblePred pid iid loc b = true ↔
      b.product_id = pid ∧ b.institution_id = iid ∧ 0 < b.remaining_weight ∧
        b.deleted_at = none ∧
        (strTruthy loc = true → b.storage_location = loc) := by
  cases hst : strTruthy loc <;>
    simp [eligiblePred, hst, Bool.and_eq_true, decide_eq_true_eq, and_assoc]

theorem available_pos {db : DB} {pid : Nat} {iid : Int} {loc : Option String} :
    ∀ b ∈ get_available_batches_fifo db pid iid loc, 0 < b.remaining_weight :=
  fun _ hb => (eligiblePred_iff.mp (mem_available_iff.mp hb).2).2.2.1

theorem available_sorted (db : DB) (pid : Nat) (iid : Int)
    (loc : Option String) :
    List.Sorted admissionLE (get_available_batches_fifo db pid iid loc) :=
  List.sorted_insertionSort admissionLE _

theorem available_ids_nodup {db : DB}
    (hnd : (db.batches.map (·.id)).Nodup) (pid : Nat) (iid : Int)
    (loc : Option String) :
    ((get_available_batches_fifo db pid iid loc).map (·.id)).Nodup := by
  have hperm : ((get_available_batches_fifo db pid iid loc).map (·.id)).Perm
      ((db.batches.filter (eligiblePred pid iid loc)).map (·.id)) :=
    (List.perm_insertionSort admissionLE _).map _
  exact hperm.nodup_iff.mpr
    (List.Nodup.sublist ((List.filter_sublist _).map _) hnd)

/-! The database effect of the FIFO walk. -/

theorem create_movement_usage_ok {db : DB} {pid : Nat} {iid : Int} {q : ℚ}
    {u : String} {loc lotv : Option String} {exp : Option Nat} {mdate : Nat}
    (hp : pid ∈ db.products) (hq : q < 0) :
    create_movement db .usage pid iid q u loc lotv exp mdate =
      ({ db with movements :=
          db.movements ++ [mkMovement .usage pid iid q u lotv exp loc mdate] },
        .ok (mkMovement .usage pid iid q u lotv exp loc mdate)) := by
  unfold create_movement
  rw [if_neg (not_not_intro hp)]
  rw [if_neg (show ¬ (MovementType.usage = MovementType.receipt ∧ q ≤ 0) by
    rintro ⟨h, -⟩
    cases h)]
  rw [if_neg (by rintro ⟨-, h0⟩; exact absurd h0 (not_le.mpr hq))]

theorem consumeWalk_spec {pid : Nat} {iid : Int} {u : String}
    {loc : Option String} {mdate : Nat} {bs : List Batch} :
    ∀ {db : DB}, pid ∈ db.products → (∀ b ∈ bs, 0 < b.remaining_weight) →
      ∀ rtc : ℚ, consumeWalk pid iid u loc mdate db bs rtc =
        ({ db with
            batches := saveAll (consumeLoop bs rtc) db.batches,
            movements := db.movements ++
              (consumeLoop bs rtc).map (usageMovementOf pid iid u loc mdate) },
          consumeLoop bs rtc, none) := by
  induction bs with
  | nil =>
    intro db _ _ rtc
    simp [consumeWalk, consumeLoop, saveAll]
  | cons b rest ih =>
    intro db hp hpos rtc
    by_cases hq : rtc ≤ 0
    · simp [consumeWalk, hq, consumeLoop_nil_of_nonpos hq, saveAll]
    · have hb := hpos b (List.mem_cons_self _ _)
      have hcpos : 0 < min rtc b.remaining_weight :=
        lt_min (lt_of_not_le hq) hb
      simp only [consumeWalk, if_neg hq]
      rw [create_movement_usage_ok (by simpa using hp)
        (neg_neg_iff_pos.mpr hcpos)]
      simp only []
      rw [ih (by simpa using hp)
        (fun x hx => hpos x (List.mem_cons_of_mem _ hx))
        (rtc - min rtc b.remaining_weight)]
      simp only [consumeLoop, if_neg hq]
      simp [saveAll, usageMovementOf, mkMovement, List.append_assoc]

theorem consume_fifo_spec {db : DB} {req : ConsumptionRequest} {now : Nat}
    (hq : 0 < req.quantity) (hp : req.product_id ∈ db.products)
    (hav : ¬ sumRemaining (get_available_batches_fifo db req.product_id
      req.institution_id req.storage_location) < req.quantity) :
    consume_inventory_fifo db req now =
      ({ db with
          batches := saveAll (consumeLoop (get_available_batches_fifo db
            req.product_id req.institution_id req.storage_location)
            req.quantity) db.batches,
          movements := db.movements ++
            (consumeLoop (get_available_batches_fifo db req.product_id
              req.institution_id req.storage_location) req.quantity).map
              (usageMovementOf req.product_id req.institution_id req.unit
                req.storage_location (req.consumption_date.getD now)) },
        .ok (consumeLoop (get_available_batches_fifo db req.product_id
          req.institution_id req.storage_location) req.quantity)) := by
  simp only [consume_inventory_fifo]
  rw [if_neg (not_not_intro hq), if_neg (not_not_intro hp), if_neg hav]
  rw [consumeWalk_spec hp available_pos req.quantity]

theorem create_movement_receipt_ok {db : DB} {pid : Nat} {iid : Int} {q : ℚ}
    {u : String} {loc lotv : Option String} {exp : Option Nat} {mdate : Nat}
    (hp : pid ∈ db.products) (hq : 0 < q) :
    create_movement db .receipt pid iid q u loc lotv exp mdate =
      ({ db with movements :=
          db.movements ++ [mkMovement .receipt pid iid q u lotv exp loc mdate] },
        .ok (mkMovement .receipt pid iid q u lotv exp loc mdate)) := by
  unfold create_movement
  rw [if_neg (not_not_intro hp)]
  rw [if_neg (by rintro ⟨-, h0⟩; exact absurd hq (not_lt.mpr h0) :
    ¬ (MovementType.receipt = MovementType.receipt ∧ q ≤ 0))]
  rw [if_neg (show ¬ ((MovementType.receipt = MovementType.usage ∨
      MovementType.receipt = MovementType.expired ∨
      MovementType.receipt = MovementType.loss) ∧ (0 : ℚ) ≤ q) by
    rintro ⟨h, -⟩
    rcases h with h | h | h <;> cases h)]

theorem receive_spec {db : DB} {req : ReceiptRequest} {now : Nat}
    (hq : 0 < req.quantity_received) (hp : req.product_id ∈ db.products)
    (hloc : ¬ (req.storage_location = "" ∨ pyStrip req.storage_location = ""))
    (hdup : ¬ db.batches.any (dupPred req) = true) :
    receive_inventory db req now =
      ({ db with
          batches := db.batches ++ [newBatchOf db req now],
          movements := db.movements ++ [mkMovement .receipt req.product_id
            req.institution_id req.quantity_received req.unit_of_measure
            (some req.batch_number) (some req.expiration_date)
            (some req.storage_location) (req.reception_date.getD now)],
          nextId := db.nextId + 1 },
        .ok (newBatchOf db req now)) := by
  simp only [receive_inventory]
  rw [if_neg (not_not_intro hq), if_neg (not_not_intro hp), if_neg hloc,
    if_neg hdup]
  rw [create_movement_receipt_ok (by simpa using hp) hq]

/-! Sum bookkeeping for batch replacement and ledger appends. -/

theorem filter_map_sum_replaceById (l : List Batch) (b b' : Batch)
    (P : Batch → Bool) (hnd : (l.map (·.id)).Nodup) (hb : b ∈ l)
    (hid : b'.id = b.id) (hP : P b' = P b) :
    (((replaceById b' l).filter P).map (·.remaining_weight)).sum =
      ((l.filter P).map (·.remaining_weight)).sum +
        (if P b then b'.remaining_weight - b.remaining_weight else 0) := by
  induction l with
  | nil => simp at hb
  | cons a t ih =>
    have hnd' : (t.map (·.id)).Nodup := (List.nodup_cons.mp hnd).2
    have hnotmem : a.id ∉ t.map (·.id) := (List.nodup_cons.mp hnd).1
    by_cases hcase : a.id = b'.id
    · have hab : a = b := by
        rcases List.mem_cons.mp hb with rfl | hbt
        · rfl
        · exact absurd (by rw [hcase, hid]; exact List.mem_map.mpr ⟨b, hbt, rfl⟩)
            hnotmem
      subst hab
      have ht : replaceById b' t = t := replaceById_eq_self (by
        intro x hx hxe
        exact hnotmem (by rw [hcase, ← hxe]; exact List.mem_map.mpr ⟨x, hx, rfl⟩))
      have hhead : replaceById b' (a :: t) = b' :: t := by
        simp [replaceById, hcase] at ht ⊢
        exact ht
      rw [hhead]
      cases hPa : P a <;> simp [List.filter_cons, hP, hPa] <;> ring
    · have hbt : b ∈ t := by
        rcases List.mem_cons.mp hb with rfl | hbt
        · exact absurd hid.symm hcase
        · exact hbt
      have hhead : replaceById b' (a :: t) = a :: replaceById b' t := by
        simp [replaceById, hcase]
      rw [hhead]
      cases hPa : P a <;>
        simp only [List.filter_cons, hPa, List.map_cons, List.sum_cons,
          ih hnd' hbt, Bool.false_eq_true, if_true, if_false] <;> ring

theorem filter_map_sum_saveAll (res : List (Batch × ℚ)) :
    ∀ (l : List Batch) (P : Batch → Bool),
      (l.map (·.id)).Nodup → (res.map (·.1.id)).Nodup →
      (∀ pr ∈ res, ∃ b ∈ l, pr.1.id = b.id ∧
        pr.1.remaining_weight = b.remaining_weight - pr.2 ∧ P pr.1 = P b) →
      (((saveAll res l).filter P).map (·.remaining_weight)).sum =
        ((l.filter P).map (·.remaining_weight)).sum -
          (res.map (fun pr => if P pr.1 then pr.2 else 0)).sum := by
  induction res with
  | nil => intro l P _ _ _; simp [saveAll]
  | cons pr res ih =>
    intro l P hnd hres hsrc
    rcases hsrc pr (List.mem_cons_self _ _) with ⟨b, hbl, hid, hrem, hPp⟩
    have hres' : (res.map (·.1.id)).Nodup := (List.nodup_cons.mp hres).2
    have hprnot : pr.1.id ∉ res.map (·.1.id) := (List.nodup_cons.mp hres).1
    have hnd2 : ((replaceById pr.1 l).map (·.id)).Nodup := by
      rw [replaceById_map_id]
      exact hnd
    have hsrc' : ∀ pr2 ∈ res, ∃ b2 ∈ replaceById pr.1 l, pr2.1.id = b2.id ∧
        pr2.1.remaining_weight = b2.remaining_weight - pr2.2 ∧
        P pr2.1 = P b2 := by
      intro pr2 hpr2
      rcases hsrc pr2 (List.mem_cons_of_mem _ hpr2) with ⟨b2, hb2, hid2, hrem2, hP2⟩
      refine ⟨b2, mem_replaceById_of_ne hb2 ?_, hid2, hrem2, hP2⟩
      intro hbe
      exact hprnot (by rw [← hid2.trans hbe]
                       exact List.mem_map.mpr ⟨pr2, hpr2, rfl⟩)
    have step := filter_map_sum_replaceById l b pr.1 P hnd hbl hid hPp
    rw [show saveAll (pr :: res) l = saveAll res (replaceById pr.1 l) from rfl]
    rw [ih _ P hnd2 hres' hsrc', step, List.map_cons, List.sum_cons, hPp, hrem]
    cases hPb : P b <;> simp <;> ring

theorem filter_map_sum_append_movements (ms ms' : List Movement)
    (P : Movement → Bool) :
    (((ms ++ ms').filter P).map (·.quantity)).sum =
      ((ms.filter P).map (·.quantity)).sum +
        ((ms'.filter P).map (·.quantity)).sum := by
  simp [List.filter_append]

theorem filter_map_sum_append_batches (l l' : List Batch) (P : Batch → Bool) :
    (((l ++ l').filter P).map (·.remaining_weight)).sum =
      ((l.filter P).map (·.remaining_weight)).sum +
        ((l'.filter P).map (·.remaining_weight)).sum := by
  simp [List.filter_append]

theorem usage_movements_sum (res : List (Batch × ℚ)) (pid : Nat) (iid : Int)
    (u : String) (loc : Option String) (mdate : Nat) (p : Nat) (i : Int)
    (hmatch : ∀ pr ∈ res, pr.1.product_id = pid ∧ pr.1.institution_id = iid) :
    (((res.map (usageMovementOf pid iid u loc mdate)).filter
      (ledgerEntryMatch p i)).map (·.quantity)).sum =
      -((res.map (fun pr => if bMatch p i pr.1 then pr.2 else 0)).sum) := by
  induction res with
  | nil => simp
  | cons pr res ih =>
    have hhead := hmatch pr (List.mem_cons_self _ _)
    have htail := ih fun x hx => hmatch x (List.mem_cons_of_mem _ hx)
    simp only [List.map_cons]
    rw [List.filter_cons]
    have heq : ledgerEntryMatch p i (usageMovementOf pid iid u loc mdate pr) =
        bMatch p i pr.1 := by
      simp [ledgerEntryMatch, usageMovementOf, mkMovement, bMatch,
        hhead.1, hhead.2]
    rw [heq]
    cases hb : bMatch p i pr.1
    · simp only [Bool.false_eq_true, if_false, List.map_cons, List.sum_cons, htail]
      ring
    · simp only [if_true, List.map_cons, List.sum_cons, htail, usageMovementOf,
        mkMovement]
      ring

/-! Outcome case analyses: every operation either leaves the state unchanged
    or produces the described success-state. -/

theorem receive_cases (db : DB) (req : ReceiptRequest) (now : Nat) :
    (receive_inventory db req now).1 = db ∨
      (0 < req.quantity_received ∧ req.product_id ∈ db.products ∧
        (receive_inventory db req now).1 =
          { db with
              batches := db.batches ++ [newBatchOf db req now],
              movements := db.movements ++ [mkMovement .receipt req.product_id
                req.institution_id req.quantity_received req.unit_of_measure
                (some req.batch_number) (some req.expiration_date)
                (some req.storage_location) (req.reception_date.getD now)],
              nextId := db.nextId + 1 }) := by
  by_cases h1 : 0 < req.quantity_received
  · by_cases h2 : req.product_id ∈ db.products
    · by_cases h3 : req.storage_location = "" ∨ pyStrip req.storage_location = ""
      · left
        unfold receive_inventory
        rw [if_neg (not_not_intro h1), if_neg (not_not_intro h2), if_pos h3]
      · by_cases h4 : db.batches.any (dupPred req) = true
        · left
          unfold receive_inventory
          rw [if_neg (not_not_intro h1), if_neg (not_not_intro h2), if_neg h3,
            if_pos h4]
        · right
          exact ⟨h1, h2, by rw [receive_spec h1 h2 h3 h4]⟩
    · left
      unfold receive_inventory
      rw [if_neg (not_not_intro h1), if_pos h2]
  · left
    unfold receive_inventory
    rw [if_pos h1]

theorem consume_cases (db : DB) (req : ConsumptionRequest) (now : Nat) :
    (consume_inventory_fifo db req now).1 = db ∨
      (0 < req.quantity ∧ req.product_id ∈ db.products ∧
        (consume_inventory_fifo db req now).1 =
          { db with
              batches := saveAll (consumeLoop (get_available_batches_fifo db
                req.product_id req.institution_id req.storage_location)
                req.quantity) db.batches,
              movements := db.movements ++
                (consumeLoop (get_available_batches_fifo db req.product_id
                  req.institution_id req.storage_location) req.quantity).map
                  (usageMovementOf req.product_id req.institution_id req.unit
                    req.storage_location (req.consumption_date.getD now)) }) := by
  by_cases h1 : 0 < req.quantity
  · by_cases h2 : req.product_id ∈ db.products
    · by_cases h3 : sumRemaining (get_available_batches_fifo db req.product_id
        req.institution_id req.storage_location) < req.quantity
      · left
        simp only [consume_inventory_fifo]
        rw [if_neg (not_not_intro h1), if_neg (not_not_intro h2), if_pos h3]
      · right
        exact ⟨h1, h2, by rw [consume_fifo_spec h1 h2 h3]⟩
    · left
      simp only [consume_inventory_fifo]
      rw [if_neg (not_not_intro h1), if_pos h2]
  · left
    simp only [consume_inventory_fifo]
    rw [if_pos h1]

theorem adjust_spec {db : DB} {req : AdjustmentRequest} {now : Nat}
    {batch : Batch}
    (hr : ¬ pyStrip req.reason = "")
    (hp : req.product_id ∈ db.products)
    (hfind : db.batches.find? (fun b => b.id == req.inventory_id) = some batch)
    (hdel : batch.deleted_at = none)
    (hprod : batch.product_id = req.product_id)
    (hunit : req.unit = batch.unit)
    (hok : ¬ batch.remaining_weight + req.quantity < 0) :
    create_manual_adjustment db req now =
      ({ db with
          batches := replaceById { batch with remaining_weight := batch.remaining_weight + req.quantity } db.batches,
          movements := db.movements ++ [adjustmentMovementOf req batch now] },
        .ok (batch.remaining_weight, batch.remaining_weight + req.quantity)) := by
  simp only [create_manual_adjustment]
  rw [if_neg hr, if_neg (not_not_intro hp), hfind]
  simp only []
  rw [if_neg (not_not_intro hdel), if_neg (not_not_intro hprod),
    if_neg (not_not_intro hunit), if_neg hok]

theorem adjust_cases (db : DB) (req : AdjustmentRequest) (now : Nat) :
    (create_manual_adjustment db req now).1 = db ∨
      ∃ batch ∈ db.batches, batch.product_id = req.product_id ∧
        ¬ batch.remaining_weight + req.quantity < 0 ∧
        (create_manual_adjustment db req now).1 =
          { db with
              batches := replaceById { batch with remaining_weight := batch.remaining_weight + req.quantity } db.batches,
              movements := db.movements ++ [adjustmentMovementOf req batch now] } := by
  by_cases h1 : pyStrip req.reason = ""
  · left
    simp only [create_manual_adjustment]
    rw [if_pos h1]
  by_cases h2 : req.product_id ∈ db.products
  swap
  · left
    simp only [create_manual_adjustment]
    rw [if_neg h1, if_pos h2]
  cases hfind : db.batches.find? (fun b => b.id == req.inventory_id) with
  | none =>
    left
    simp only [create_manual_adjustment]
    rw [if_neg h1, if_neg (not_not_intro h2), hfind]
  | some batch =>
    by_cases h3 : batch.deleted_at = none
    swap
    · left
      simp only [create_manual_adjustment]
      rw [if_neg h1, if_neg (not_not_intro h2), hfind]
      simp only []
      rw [if_pos h3]
    by_cases h4 : batch.product_id = req.product_id
    swap
    · left
      simp only [create_manual_adjustment]
      rw [if_neg h1, if_neg (not_not_intro h2), hfind]
      simp only []
      rw [if_neg (not_not_intro h3), if_pos h4]
    by_cases h5 : req.unit = batch.unit
    swap
    · left
      simp only [create_manual_adjustment]
      rw [if_neg h1, if_neg (not_not_intro h2), hfind]
      simp only []
      rw [if_neg (not_not_intro h3), if_neg (not_not_intro h4), if_pos h5]
    by_cases h6 : batch.remaining_weight + req.quantity < 0
    · left
      simp only [create_manual_adjustment]
      rw [if_neg h1, if_neg (not_not_intro h2), hfind]
      simp only []
      rw [if_neg (not_not_intro h3), if_neg (not_not_intro h4),
        if_neg (not_not_intro h5), if_pos h6]
    · right
      exact ⟨batch, List.mem_of_find?_eq_some hfind, h4, h6,
        by rw [adjust_spec h1 h2 hfind h3 h4 h5 h6]⟩

theorem filter_map_sum_singleton_batch (b : Batch) (P : Batch → Bool) :
    ((([b] : List Batch).filter P).map (·.remaining_weight)).sum =
      if P b then b.remaining_weight else 0 := by
  cases h : P b <;> simp [List.filter_cons, h]

theorem filter_map_sum_singleton_movement (m : Movement) (P : Movement → Bool) :
    ((([m] : List Movement).filter P).map (·.quantity)).sum =
      if P m then m.quantity else 0 := by
  cases h : P m <;> simp [List.filter_cons, h]

/-! Preservation of the structural invariant by every operation. -/

theorem goodDB_init (products : List Nat) : GoodDB (initDB products) := by
  refine ⟨by simp [initDB], by simp [initDB], ?_⟩
  intro p i
  simp [initDB, batchSum, ledgerSum]

theorem goodDB_receive {db : DB} {req : ReceiptRequest} {now : Nat}
    (h : GoodDB db) : GoodDB (receive_inventory db req now).1 := by
  rcases receive_cases db req now with heq | ⟨hq, -, heq⟩
  · rw [heq]
    exact h
  · rw [heq]
    obtain ⟨hnd, hbound, hrecon⟩ := h
    refine ⟨?_, ?_, ?_⟩
    · simp only [List.map_append, List.map_cons, List.map_nil]
      refine List.Nodup.append hnd (List.nodup_singleton _) ?_
      intro a ha hb
      rcases List.mem_map.mp ha with ⟨b, hbmem, rfl⟩
      have hlt := hbound b hbmem
      simp [newBatchOf] at hb
      omega
    · intro b hb
      rcases List.mem_append.mp hb with hb | hb
      · exact Nat.lt_succ_of_lt (hbound b hb)
      · simp only [List.mem_singleton] at hb
        rw [hb]
        simp [newBatchOf]
    · intro p i
      simp only [batchSum, ledgerSum]
      rw [filter_map_sum_append_batches, filter_map_sum_append_movements,
        filter_map_sum_singleton_batch, filter_map_sum_singleton_movement]
      have hr := hrecon p i
      simp only [batchSum, ledgerSum] at hr
      rw [hr]
      congr 1
      simp [bMatch, ledgerEntryMatch, newBatchOf, mkMovement]

theorem goodDB_adjust {db : DB} {req : AdjustmentRequest} {now : Nat}
    (h : GoodDB db) : GoodDB (create_manual_adjustment db req now).1 := by
  rcases adjust_cases db req now with heq | ⟨batch, hmem, hprod, hok, heq⟩
  · rw [heq]
    exact h
  · rw [heq]
    obtain ⟨hnd, hbound, hrecon⟩ := h
    refine ⟨?_, ?_, ?_⟩
    · rw [replaceById_map_id]
      exact hnd
    · intro b hb
      rcases mem_replaceById hb with rfl | hb
      · exact hbound batch hmem
      · exact hbound b hb
    · intro p i
      simp only [batchSum, ledgerSum]
      rw [filter_map_sum_replaceById db.batches batch
        { batch with remaining_weight := batch.remaining_weight + req.quantity }
        (bMatch p i) hnd hmem rfl rfl]
      rw [filter_map_sum_append_movements, filter_map_sum_singleton_movement]
      have hr := hrecon p i
      simp only [batchSum, ledgerSum] at hr
      rw [hr]
      congr 1
      have hlm : ledgerEntryMatch p i (adjustmentMovementOf req batch now) =
          bMatch p i batch := by
        simp [ledgerEntryMatch, adjustmentMovementOf, bMatch, hprod]
      rw [hlm]
      cases hPb : bMatch p i batch <;>
        simp [hPb, adjustmentMovementOf] <;> ring

theorem goodDB_consume {db : DB} {req : ConsumptionRequest} {now : Nat}
    (h : GoodDB db) : GoodDB (consume_inventory_fifo db req now).1 := by
  rcases consume_cases db req now with heq | ⟨hq, hp, heq⟩
  · rw [heq]
    exact h
  · rw [heq]
    obtain ⟨hnd, hbound, hrecon⟩ := h
    have hsrc0 := @consumeLoop_sources
      (get_available_batches_fifo db req.product_id req.institution_id
        req.storage_location) req.quantity
    have hresnd : (((consumeLoop (get_available_batches_fifo db req.product_id
        req.institution_id req.storage_location) req.quantity)).map
        (·.1.id)).Nodup :=
      List.Nodup.sublist (consumeLoop_ids_sublist _ _)
        (available_ids_nodup hnd _ _ _)
    refine ⟨?_, ?_, ?_⟩
    · rw [saveAll_map_id]
      exact hnd
    · intro b hb
      rcases mem_saveAll hb with hb | ⟨pr, hpr, rfl⟩
      · exact hbound b hb
      · rcases hsrc0 pr hpr with ⟨b2, hb2, -, heq2⟩
        rw [heq2]
        exact hbound b2 (mem_available_iff.mp hb2).1
    · intro p i
      have hsrcP : ∀ pr ∈ consumeLoop (get_available_batches_fifo db
          req.product_id req.institution_id req.storage_location) req.quantity,
          ∃ b2 ∈ db.batches, pr.1.id = b2.id ∧
            pr.1.remaining_weight = b2.remaining_weight - pr.2 ∧
            bMatch p i pr.1 = bMatch p i b2 := by
        intro pr hpr
        rcases hsrc0 pr hpr with ⟨b2, hb2, -, heq2⟩
        exact ⟨b2, (mem_available_iff.mp hb2).1, by rw [heq2], by rw [heq2],
          by rw [heq2]
             rfl⟩
      have hm : ∀ pr ∈ consumeLoop (get_available_batches_fifo db
          req.product_id req.institution_id req.storage_location) req.quantity,
          pr.1.product_id = req.product_id ∧
            pr.1.institution_id = req.institution_id := by
        intro pr hpr
        rcases hsrc0 pr hpr with ⟨b2, hb2, -, heq2⟩
        have he := eligiblePred_iff.mp (mem_available_iff.mp hb2).2
        rw [heq2]
        exact ⟨he.1, he.2.1⟩
      simp only [batchSum, ledgerSum]
      rw [filter_map_sum_saveAll _ db.batches (bMatch p i) hnd hresnd hsrcP]
      rw [filter_map_sum_append_movements]
      rw [usage_movements_sum _ req.product_id req.institution_id req.unit
        req.storage_location (req.consumption_date.getD now) p i hm]
      have hr := hrecon p i
      simp only [batchSum, ledgerSum] at hr
      rw [hr]
      ring

theorem goodDB_applyOp {db : DB} (h : GoodDB db) (op : Op) :
    GoodDB (applyOp db op) := by
  cases op with
  | receive req now => exact goodDB_receive h
  | consume req now => exact goodDB_consume h
  | adjust req now => exact goodDB_adjust h

theorem goodDB_runOps {db : DB} (h : GoodDB db) :
    ∀ ops : List Op, GoodDB (runOps db ops)
  | [] => h
  | op :: rest => goodDB_runOps (goodDB_applyOp h op) rest

/-! Preservation of the batch-quantity bounds. -/

theorem nonnegDB_applyOp {db : DB} (h : NonnegDB db) (op : Op) :
    NonnegDB (applyOp db op) := by
  cases op with
  | receive req now =>
    rcases receive_cases db req now with heq | ⟨hq, -, heq⟩ <;>
      simp only [applyOp] <;> rw [heq]
    · exact h
    · intro b hb
      rcases List.mem_append.mp hb with hb | hb
      · exact h b hb
      · simp only [List.mem_singleton] at hb
        rw [hb]
        exact le_of_lt hq
  | consume req now =>
    rcases consume_cases db req now with heq | ⟨hq, hp, heq⟩ <;>
      simp only [applyOp] <;> rw [heq]
    · exact h
    · intro b hb
      rcases mem_saveAll hb with hb | ⟨pr, hpr, rfl⟩
      · exact h b hb
      · exact consumeLoop_nonneg pr hpr
  | adjust req now =>
    rcases adjust_cases db req now with heq | ⟨batch, hmem, hprod, hok, heq⟩ <;>
      simp only [applyOp] <;> rw [heq]
    · exact h
    · intro b hb
      rcases mem_replaceById hb with rfl | hb
      · exact not_lt.mp hok
      · exact h b hb

theorem nonnegDB_runOps {db : DB} (h : NonnegDB db) :
    ∀ ops : List Op, NonnegDB (runOps db ops)
  | [] => h
  | op :: rest => nonnegDB_runOps (nonnegDB_applyOp h op) rest

theorem boundedDB_applyOp {db : DB} (h : BoundedDB db) (op : Op)
    (hop : op.isAdjust = false) : BoundedDB (applyOp db op) := by
  cases op with
  | receive req now =>
    rcases receive_cases db req now with heq | ⟨hq, -, heq⟩ <;>
      simp only [applyOp] <;> rw [heq]
    · exact h
    · intro b hb
      rcases List.mem_append.mp hb with hb | hb
      · exact h b hb
      · simp only [List.mem_singleton] at hb
        rw [hb]
        exact ⟨le_of_lt hq, le_refl _⟩
  | consume req now =>
    rcases consume_cases db req now with heq | ⟨hq, hp, heq⟩ <;>
      simp only [applyOp] <;> rw [heq]
    · exact h
    · intro b hb
      rcases mem_saveAll hb with hb | ⟨pr, hpr, rfl⟩
      · exact h b hb
      · rcases consumeLoop_sources pr hpr with ⟨b2, hb2, hle, heq2⟩
        have hpos2 : 0 < pr.2 := consumeLoop_consumed_pos available_pos pr hpr
        have hb2' := h b2 (mem_available_iff.mp hb2).1
        rw [heq2]
        constructor
        · exact sub_nonneg.mpr hle
        · exact le_trans (sub_le_self _ (le_of_lt hpos2)) hb2'.2
  | adjust req now => cases hop

theorem boundedDB_runOps {db : DB} (h : BoundedDB db) :
    ∀ ops : List Op, (∀ op ∈ ops, op.isAdjust = false) →
      BoundedDB (runOps db ops)
  | [], _ => h
  | op :: rest, hops =>
    boundedDB_runOps
      (boundedDB_applyOp h op (hops op (List.mem_cons_self _ _)))
      rest (fun x hx => hops x (List.mem_cons_of_mem _ hx))

/-! Claim theorems. -/

/-- C1: for every FIFO consumption request with quantity q > 0 and total
    available stock at least q over the eligible batches (ordered oldest
    admission first), the engine walks the batches in that order, consuming
    from the i-th touched batch exactly min(remaining-to-consume, remaining)
    and subtracting it, so every touched batch except the last is fully
    depleted before a newer batch is touched, no remaining_weight becomes
    negative, total consumed equals q, and when total available equals q
    exactly every touched batch (in particular the last) ends at exactly 0. -/
theorem C1_fifo_consumption {db : DB} {pid : Nat} {iid : Int}
    {loc : Option String} {q : ℚ} {bs : List Batch} {res : List (Batch × ℚ)}
    (hbs : bs = get_available_batches_fifo db pid iid loc)
    (hres : res = consumeLoop bs q)
    (hq : 0 < q) (hav : q ≤ sumRemaining bs) :
    consumedTotal res = q ∧
    res.length ≤ bs.length ∧
    (∀ (i : Nat) (pr : Batch × ℚ), res[i]? = some pr →
      ∃ b, bs[i]? = some b ∧ pr.1.id = b.id ∧
        pr.2 = min (q - consumedTotal (res.take i)) b.remaining_weight ∧
        pr.1.remaining_weight = b.remaining_weight - pr.2) ∧
    (∀ (i : Nat) (pr : Batch × ℚ), res[i]? = some pr →
      i + 1 < res.length → pr.1.remaining_weight = 0) ∧
    (∀ pr ∈ res, 0 ≤ pr.1.remaining_weight) ∧
    (sumRemaining bs = q → ∀ pr ∈ res, pr.1.remaining_weight = 0) := by
  subst hres
  subst hbs
  exact ⟨consumedTotal_consumeLoop hq hav, consumeLoop_length_le _ _,
    fun i pr hpr => consumeLoop_get i pr hpr,
    fun i pr hpr hi => consumeLoop_prefix_zero i pr hpr hi,
    fun pr hpr => consumeLoop_nonneg pr hpr,
    fun hsum pr hpr => consumeLoop_all_zero
      (fun b hb => le_of_lt (available_pos b hb)) hsum pr hpr⟩

/-- C1 witness: dbAB holds 5 kg admitted day 1 and 8 kg admitted day 2;
    consuming 10 kg satisfies the hypotheses and yields the guarantees. -/
theorem C1_fifo_consumption_witness :
    ((0 : ℚ) < 10 ∧
      (10 : ℚ) ≤ sumRemaining (get_available_batches_fifo dbAB 1 1 none)) ∧
    (consumedTotal (consumeLoop (get_available_batches_fifo dbAB 1 1 none) 10) = 10 ∧
    (consumeLoop (get_available_batches_fifo dbAB 1 1 none) 10).length ≤
      (get_available_batches_fifo dbAB 1 1 none).length ∧
    (∀ (i : Nat) (pr : Batch × ℚ),
      (consumeLoop (get_available_batches_fifo dbAB 1 1 none) 10)[i]? = some pr →
      ∃ b, (get_available_batches_fifo dbAB 1 1 none)[i]? = some b ∧
        pr.1.id = b.id ∧
        pr.2 = min (10 - consumedTotal ((consumeLoop
          (get_available_batches_fifo dbAB 1 1 none) 10).take i))
          b.remaining_weight ∧
        pr.1.remaining_weight = b.remaining_weight - pr.2) ∧
    (∀ (i : Nat) (pr : Batch × ℚ),
      (consumeLoop (get_available_batches_fifo dbAB 1 1 none) 10)[i]? = some pr →
      i + 1 < (consumeLoop (get_available_batches_fifo dbAB 1 1 none) 10).length →
      pr.1.remaining_weight = 0) ∧
    (∀ pr ∈ consumeLoop (get_available_batches_fifo dbAB 1 1 none) 10,
      0 ≤ pr.1.remaining_weight) ∧
    (sumRemaining (get_available_batches_fifo dbAB 1 1 none) = 10 →
      ∀ pr ∈ consumeLoop (get_available_batches_fifo dbAB 1 1 none) 10,
        pr.1.remaining_weight = 0)) :=
  ⟨⟨by norm_num,
    by simp +decide [sumRemaining, get_available_batches_fifo, eligiblePred,
         strTruthy, List.insertionSort, List.orderedInsert, admissionLE,
         dbAB, bA, bB]
       norm_num⟩,
   C1_fifo_consumption rfl rfl (by norm_num)
     (by simp +decide [sumRemaining, get_available_batches_fifo, eligiblePred,
           strTruthy, List.insertionSort, List.orderedInsert, admissionLE,
           dbAB, bA, bB]
         norm_num)⟩

/-- C2: starting from a fresh deployment, after any sequence of receipt,
    FIFO-consumption and manual-adjustment requests (failed requests change
    nothing), the sum of remaining_weight over the batches of any
    product+institution filter equals the sum of the matching non-deleted
    RECEIPT, USAGE and ADJUSTMENT ledger-entry quantities. -/
theorem C2_reconciliation (products : List Nat) (ops : List Op) (p : Nat)
    (i : Int) :
    batchSum (runOps (initDB products) ops) p i =
      ledgerSum (runOps (initDB products) ops) p i :=
  (goodDB_runOps (goodDB_init products) ops).2.2 p i

/-- C3 counterexample: receive a 10 kg batch, then manually adjust it by +5.
    The batch ends with remaining_weight 15 above initial_weight 10, so
    0 <= remaining <= initial does not hold after every operation. -/
theorem C3_counterexample :
    (runOps (initDB [1]) cexOps).batches.map
      (fun b => (b.remaining_weight, b.initial_weight)) = [(15, 10)] ∧
    ¬ ((15 : ℚ) ≤ 10) := by
  constructor
  · simp +decide [runOps, applyOp, receive_inventory, create_manual_adjustment,
      create_movement, mkMovement, replaceById, newBatchOf, dupPred,
      adjustmentMovementOf, initDB, cexOps, receiptReqL1, adjustReqNeg15,
      adjustReqPos5, pyStrip]
    norm_num
  · norm_num

/-- C3 (amended): 0 <= remaining_weight holds for every batch after every
    operation; and as long as no manual adjustment runs, remaining_weight <=
    initial_weight also holds. A manual adjustment with a positive quantity
    can push remaining_weight above initial_weight (see the counterexample). -/
theorem C3_batch_bounds (products : List Nat) (ops : List Op) :
    (∀ b ∈ (runOps (initDB products) ops).batches, 0 ≤ b.remaining_weight) ∧
    ((∀ op ∈ ops, op.isAdjust = false) →
      ∀ b ∈ (runOps (initDB products) ops).batches,
        0 ≤ b.remaining_weight ∧ b.remaining_weight ≤ b.initial_weight) :=
  ⟨nonnegDB_runOps (fun b hb => by simp [initDB] at hb) ops,
   fun hops => boundedDB_runOps (fun b hb => by simp [initDB] at hb) ops hops⟩

/-- C4: a FIFO consumption request whose quantity exceeds the total available
    stock over the eligible batches fails with InsufficientStock (HTTP 400)
    and returns the database unchanged: no batch is mutated and no ledger
    entry is written, because the availability check runs before any write. -/
theorem C4_insufficient_stock {db : DB} {req : ConsumptionRequest} {now : Nat}
    (hq : 0 < req.quantity) (hp : req.product_id ∈ db.products)
    (hlt : sumRemaining (get_available_batches_fifo db req.product_id
      req.institution_id req.storage_location) < req.quantity) :
    consume_inventory_fifo db req now = (db, .error .insufficientStock) := by
  simp only [consume_inventory_fifo]
  rw [if_neg (not_not_intro hq), if_neg (not_not_intro hp), if_pos hlt]

/-- C4 witness: dbAB holds 13 kg in total; requesting 24 kg is rejected with
    InsufficientStock and the state is unchanged. -/
theorem C4_insufficient_stock_witness :
    (0 < consumeReq24.quantity ∧ consumeReq24.product_id ∈ dbAB.products ∧
      sumRemaining (get_available_batches_fifo dbAB consumeReq24.product_id
        consumeReq24.institution_id consumeReq24.storage_location) <
        consumeReq24.quantity) ∧
    consume_inventory_fifo dbAB consumeReq24 5 =
      (dbAB, .error .insufficientStock) :=
  ⟨⟨by norm_num [consumeReq24, consumeReq10], by decide,
    by simp +decide [sumRemaining, get_available_batches_fifo, eligiblePred,
         strTruthy, List.insertionSort, List.orderedInsert, admissionLE,
         dbAB, bA, bB, consumeReq24, consumeReq10]
       norm_num⟩,
   C4_insufficient_stock (by norm_num [consumeReq24, consumeReq10]) (by decide)
     (by simp +decide [sumRemaining, get_available_batches_fifo, eligiblePred,
           strTruthy, List.insertionSort, List.orderedInsert, admissionLE,
           dbAB, bA, bB, consumeReq24, consumeReq10]
         norm_num)⟩

/-- C5: a manual adjustment whose signed quantity would drive the batch's
    remaining_weight below zero fails with NegativeStockRejected (HTTP 400)
    and returns the database unchanged: the batch keeps its remaining_weight
    and no ledger entry is written. -/
theorem C5_negative_adjustment_rejected {db : DB} {req : AdjustmentRequest}
    {now : Nat} {batch : Batch}
    (hr : ¬ pyStrip req.reason = "")
    (hp : req.product_id ∈ db.products)
    (hfind : db.batches.find? (fun b => b.id == req.inventory_id) = some batch)
    (hdel : batch.deleted_at = none)
    (hprod : batch.product_id = req.product_id)
    (hunit : req.unit = batch.unit)
    (hneg : batch.remaining_weight + req.quantity < 0) :
    create_manual_adjustment db req now = (db, .error .negativeStock) := by
  simp only [create_manual_adjustment]
  rw [if_neg hr, if_neg (not_not_intro hp), hfind]
  simp only []
  rw [if_neg (not_not_intro hdel), if_neg (not_not_intro hprod),
    if_neg (not_not_intro hunit), if_pos hneg]

/-- C5 witness: batch bC has remaining 10; adjusting it by -15 is rejected
    with NegativeStockRejected and dbC is unchanged. -/
theorem C5_negative_adjustment_rejected_witness :
    (¬ pyStrip adjustReqNeg15.reason = "" ∧
      adjustReqNeg15.product_id ∈ dbC.products ∧
      dbC.batches.find? (fun b => b.id == adjustReqNeg15.inventory_id) =
        some bC ∧
      bC.deleted_at = none ∧ bC.product_id = adjustReqNeg15.product_id ∧
      adjustReqNeg15.unit = bC.unit ∧
      bC.remaining_weight + adjustReqNeg15.quantity < 0) ∧
    create_manual_adjustment dbC adjustReqNeg15 9 =
      (dbC, .error .negativeStock) :=
  ⟨⟨by decide, by decide, by decide, by decide, by decide, by decide,
    by norm_num [bC, bA, adjustReqNeg15]⟩,
   @C5_negative_adjustment_rejected dbC adjustReqNeg15 9 bC (by decide)
     (by decide) (by decide) (by decide) (by decide) (by decide)
     (by norm_num [bC, bA, adjustReqNeg15])⟩

/-- C6 (amended): the eligible-batch query returns exactly the non-deleted
    batches with remaining_weight > 0 matching the product, institution and
    (truthy) location filters, ordered ascending by date of admission; for
    equal admission dates the underlying collection order is kept, and no
    batch-id tie-break is applied. -/
theorem C6_eligible_batches (db : DB) (pid : Nat) (iid : Int)
    (loc : Option String) :
    (∀ b : Batch, b ∈ get_available_batches_fifo db pid iid loc ↔
      (b ∈ db.batches ∧ b.product_id = pid ∧ b.institution_id = iid ∧
        0 < b.remaining_weight ∧ b.deleted_at = none ∧
        (strTruthy loc = true → b.storage_location = loc))) ∧
    (get_available_batches_fifo db pid iid loc).Perm
      (db.batches.filter (eligiblePred pid iid loc)) ∧
    List.Sorted admissionLE (get_available_batches_fifo db pid iid loc) := by
  refine ⟨?_, List.perm_insertionSort _ _, available_sorted db pid iid loc⟩
  intro b
  rw [mem_available_iff, eligiblePred_iff]

/-- C6 counterexample: dbTie stores two eligible batches with the same
    admission date 5, the batch with id 2 before the batch with id 1. The
    query returns them in collection order [2, 1], not ascending by batch id,
    so the claimed id tie-break does not exist. -/
theorem C6_counterexample :
    (get_available_batches_fifo dbTie 1 1 none).map (·.id) = [2, 1] ∧
    (get_available_batches_fifo dbTie 1 1 none).map (·.date_of_admission) =
      [5, 5] ∧
    ¬ ((2 : Nat) ≤ 1) :=
  ⟨by decide, by decide, by decide⟩

/-- C7 (amended): under an existing product, create_movement validates only
    RECEIPT (quantity > 0) and USAGE/EXPIRED/LOSS (quantity < 0), failing
    with a 400 before insertion otherwise; an ADJUSTMENT entry is not
    validated at all: any quantity, zero included, is inserted. -/
theorem C7_sign_validation {db : DB} {mt : MovementType} {pid : Nat}
    {iid : Int} {q : ℚ} {u : String} {loc lotv : Option String}
    {exp : Option Nat} {mdate : Nat} (hp : pid ∈ db.products) :
    (create_movement db mt pid iid q u loc lotv exp mdate =
      if (mt = .receipt ∧ q ≤ 0) ∨
          ((mt = .usage ∨ mt = .expired ∨ mt = .loss) ∧ 0 ≤ q) then
        (db, .error .badRequest)
      else
        ({ db with movements := db.movements ++
            [mkMovement mt pid iid q u lotv exp loc mdate] },
          .ok (mkMovement mt pid iid q u lotv exp loc mdate))) ∧
    (mt = .adjustment →
      create_movement db mt pid iid q u loc lotv exp mdate =
        ({ db with movements := db.movements ++
            [mkMovement mt pid iid q u lotv exp loc mdate] },
          .ok (mkMovement mt pid iid q u lotv exp loc mdate))) := by
  constructor
  · unfold create_movement
    rw [if_neg (not_not_intro hp)]
    by_cases h1 : mt = .receipt ∧ q ≤ 0
    · rw [if_pos h1, if_pos (Or.inl h1)]
    · rw [if_neg h1]
      by_cases h2 : (mt = .usage ∨ mt = .expired ∨ mt = .loss) ∧ 0 ≤ q
      · rw [if_pos h2, if_pos (Or.inr h2)]
      · rw [if_neg h2, if_neg ?hor]
        case hor =>
          rintro (h | h)
          exacts [h1 h, h2 h]
  · rintro rfl
    unfold create_movement
    rw [if_neg (not_not_intro hp)]
    rw [if_neg (show ¬ (MovementType.adjustment = MovementType.receipt ∧
        q ≤ 0) by rintro ⟨h, -⟩; cases h)]
    rw [if_neg (show ¬ ((MovementType.adjustment = MovementType.usage ∨
        MovementType.adjustment = MovementType.expired ∨
        MovementType.adjustment = MovementType.loss) ∧ 0 ≤ q) by
      rintro ⟨h, -⟩
      rcases h with h | h | h <;> cases h)]

/-- C7 counterexample: an ADJUSTMENT ledger append with quantity exactly 0 is
    accepted and inserted, not rejected with InvalidMovement as claimed. -/
theorem C7_counterexample :
    ((create_movement (initDB [1]) .adjustment 1 1 0 "kg" none none none
      7).2).isOk = true ∧
    ((create_movement (initDB [1]) .adjustment 1 1 0 "kg" none none none
      7).1).movements =
      [mkMovement .adjustment 1 1 0 "kg" none none none 7] :=
  ⟨by decide, by decide⟩

/-- C7 witness: with product 1 known, the amended validation rule holds at
    an ADJUSTMENT movement of quantity 0. -/
theorem C7_sign_validation_witness :
    (1 ∈ (initDB [1]).products) ∧
    ((create_movement (initDB [1]) .adjustment 1 1 0 "kg" none none none 7 =
      if (MovementType.adjustment = .receipt ∧ (0 : ℚ) ≤ 0) ∨
          ((MovementType.adjustment = .usage ∨
            MovementType.adjustment = .expired ∨
            MovementType.adjustment = .loss) ∧ (0 : ℚ) ≤ 0) then
        (initDB [1], .error .badRequest)
      else
        ({ initDB [1] with movements := (initDB [1]).movements ++
            [mkMovement .adjustment 1 1 0 "kg" none none none 7] },
          .ok (mkMovement .adjustment 1 1 0 "kg" none none none 7))) ∧
    (MovementType.adjustment = MovementType.adjustment →
      create_movement (initDB [1]) .adjustment 1 1 0 "kg" none none none 7 =
        ({ initDB [1] with movements := (initDB [1]).movements ++
            [mkMovement .adjustment 1 1 0 "kg" none none none 7] },
          .ok (mkMovement .adjustment 1 1 0 "kg" none none none 7)))) :=
  ⟨by decide, C7_sign_validation (by decide)⟩

theorem receive_ok_inv {db db' : DB} {req : ReceiptRequest} {now : Nat}
    {r : Batch} (h : receive_inventory db req now = (db', .ok r)) :
    0 < req.quantity_received ∧ req.product_id ∈ db.products ∧
      db' = { db with
          batches := db.batches ++ [newBatchOf db req now],
          movements := db.movements ++ [mkMovement .receipt req.product_id
            req.institution_id req.quantity_received req.unit_of_measure
            (some req.batch_number) (some req.expiration_date)
            (some req.storage_location) (req.reception_date.getD now)],
          nextId := db.nextId + 1 } := by
  by_cases h1 : 0 < req.quantity_received
  · by_cases h2 : req.product_id ∈ db.products
    · by_cases h3 : req.storage_location = "" ∨ pyStrip req.storage_location = ""
      · rw [show receive_inventory db req now = (db, .error .badRequest) by
          unfold receive_inventory
          rw [if_neg (not_not_intro h1), if_neg (not_not_intro h2),
            if_pos h3]] at h
        simp at h
      · by_cases h4 : db.batches.any (dupPred req) = true
        · rw [show receive_inventory db req now = (db, .error .conflict) by
            unfold receive_inventory
            rw [if_neg (not_not_intro h1), if_neg (not_not_intro h2),
              if_neg h3, if_pos h4]] at h
          simp at h
        · rw [receive_spec h1 h2 h3 h4] at h
          refine ⟨h1, h2, ?_⟩
          exact (congrArg Prod.fst h).symm
    · rw [show receive_inventory db req now = (db, .error .productNotFound) by
        unfold receive_inventory
        rw [if_neg (not_not_intro h1), if_pos h2]] at h
      simp at h
  · rw [show receive_inventory db req now = (db, .error .validation) by
      unfold receive_inventory
      rw [if_pos h1]] at h
    simp at h

/-- C8: a receipt whose (product, institution, batch_number) triple already
    exists among non-deleted batches fails with Conflict (HTTP 409) and
    returns the database unchanged, creating neither a batch nor a ledger
    entry; and after any successful receipt, a second otherwise-valid receipt
    with the same triple always fails the same way. -/
theorem C8_duplicate_batch {db : DB} {req : ReceiptRequest} {now : Nat}
    (hq : 0 < req.quantity_received)
    (hp : req.product_id ∈ db.products)
    (hloc : ¬ (req.storage_location = "" ∨ pyStrip req.storage_location = ""))
    (hdup : ∃ b ∈ db.batches, b.product_id = req.product_id ∧
      b.institution_id = req.institution_id ∧
      b.batch_number = req.batch_number ∧ b.deleted_at = none) :
    receive_inventory db req now = (db, .error .conflict) ∧
    (∀ (db0 db1 : DB) (req0 req1 : ReceiptRequest) (now0 now1 : Nat)
        (r1 : Batch),
      receive_inventory db0 req0 now0 = (db1, .ok r1) →
      0 < req1.quantity_received →
      ¬ (req1.storage_location = "" ∨ pyStrip req1.storage_location = "") →
      req1.product_id = req0.product_id →
      req1.institution_id = req0.institution_id →
      req1.batch_number = req0.batch_number →
      receive_inventory db1 req1 now1 = (db1, .error .conflict)) := by
  constructor
  · have hany : db.batches.any (dupPred req) = true := by
      rcases hdup with ⟨b, hb, h1, h2, h3, h4⟩
      refine List.any_eq_true.mpr ⟨b, hb, ?_⟩
      simp [dupPred, h1, h2, h3, h4]
    unfold receive_inventory
    rw [if_neg (not_not_intro hq), if_neg (not_not_intro hp), if_neg hloc,
      if_pos hany]
  · intro db0 db1 req0 req1 now0 now1 r1 hsucc hq1 hloc1 hpe hie hbe
    rcases receive_ok_inv hsucc with ⟨hq0, hp0, hdb1⟩
    have hany1 : db1.batches.any (dupPred req1) = true := by
      rw [hdb1]
      refine List.any_eq_true.mpr ⟨newBatchOf db0 req0 now0, by simp, ?_⟩
      simp [dupPred, newBatchOf, hpe, hie, hbe]
    have hp1 : req1.product_id ∈ db1.products := by
      rw [hdb1]
      simpa [hpe] using hp0
    unfold receive_inventory
    rw [if_neg (not_not_intro hq1), if_neg (not_not_intro hp1),
      if_neg hloc1, if_pos hany1]

/-- C8 witness: dbC already stores batch number "C" for product 1 at
    institution 1, so receiving receiptReqC is rejected with Conflict. -/
theorem C8_duplicate_batch_witness :
    (0 < receiptReqC.quantity_received ∧
      receiptReqC.product_id ∈ dbC.products ∧
      ¬ (receiptReqC.storage_location = "" ∨
        pyStrip receiptReqC.storage_location = "") ∧
      (∃ b ∈ dbC.batches, b.product_id = receiptReqC.product_id ∧
        b.institution_id = receiptReqC.institution_id ∧
        b.batch_number = receiptReqC.batch_number ∧ b.deleted_at = none)) ∧
    receive_inventory dbC receiptReqC 4 = (dbC, .error .conflict) :=
  ⟨⟨by norm_num [receiptReqC, receiptReqL1], by decide, by decide, by decide⟩,
   (C8_duplicate_batch (by norm_num [receiptReqC, receiptReqL1]) (by decide)
     (by decide) (by decide)).1⟩

/-- C9: getCurrentStock returns the arithmetic sum of the quantities of all
    non-deleted ledger entries matching the product, institution and truthy
    location/lot filters, floored at zero: a negative sum reads as 0 and a
    nonnegative sum reads exactly. -/
theorem C9_current_stock_clamped (db : DB) (pid : Nat) (iid : Int)
    (loc lotv : Option String) :
    get_current_stock db pid iid loc lotv =
      (if ((db.movements.filter (stockQueryPred pid iid loc lotv)).map
          (·.quantity)).sum < 0 then 0
        else ((db.movements.filter (stockQueryPred pid iid loc lotv)).map
          (·.quantity)).sum) := by
  unfold get_current_stock
  rcases lt_or_le ((db.movements.filter (stockQueryPred pid iid loc
    lotv)).map (·.quantity)).sum 0 with h | h
  · rw [if_pos h, max_eq_left (le_of_lt h)]
  · rw [if_neg (not_lt.mpr h), max_eq_right h]

/-- C10: an optional filter whose Python value is falsy is dropped from the
    query instead of applied: institution_id = 0 in the movement listing, and
    empty-string storage_location or lot in the stock and eligible-batch
    queries, behave exactly like passing no filter at all. -/
theorem C10_falsy_filters_ignored :
    (∀ (db : DB) (pid : Nat) (mt : Option MovementType) (limit offset : Nat),
      get_movements_by_product db pid (some 0) mt limit offset =
        get_movements_by_product db pid none mt limit offset) ∧
    (∀ (db : DB) (pid : Nat) (iid : Int) (lotv : Option String),
      get_current_stock db pid iid (some "") lotv =
        get_current_stock db pid iid none lotv) ∧
    (∀ (db : DB) (pid : Nat) (iid : Int) (loc : Option String),
      get_current_stock db pid iid loc (some "") =
        get_current_stock db pid iid loc none) ∧
    (∀ (db : DB) (pid : Nat) (iid : Int),
      get_available_batches_fifo db pid iid (some "") =
        get_available_batches_fifo db pid iid none) := by
  refine ⟨?_, ?_, ?_, ?_⟩
  · intro db pid mt limit offset
    have hpred : movementQueryPred pid (some 0) mt =
        movementQueryPred pid none mt := by
      funext m
      simp [movementQueryPred, intTruthy]
    rw [get_movements_by_product, get_movements_by_product, hpred]
  · intro db pid iid lotv
    have hpred : stockQueryPred pid iid (some "") lotv =
        stockQueryPred pid iid none lotv := by
      funext m
      simp [stockQueryPred, strTruthy]
    rw [get_current_stock, get_current_stock, hpred]
  · intro db pid iid loc
    have hpred : stockQueryPred pid iid loc (some "") =
        stockQueryPred pid iid loc none := by
      funext m
      simp [stockQueryPred, strTruthy]
    rw [get_current_stock, get_current_stock, hpred]
  · intro db pid iid
    have hpred : eligiblePred pid iid (some "") =
        eligiblePred pid iid none := by
      funext b
      simp [eligiblePred, strTruthy]
    rw [get_available_batches_fifo, get_available_batches_fifo, hpred]

end NutriPae
